import Mathlib

/-!
Verification of the chunked memory-mapped array storage subsystem of
`cgptoolbox` (`src/cgp/utils/load_memmap_offset.py`): the contiguous-range
chunk indexer `memmap_chunk_ind`, the offset-capable `open_memmap`
reader/writer for the versioned binary array format, and the
format-sniffing top-level `load` dispatcher.

The Python functions are shallowly embedded as executable Lean functions.
Machine-level behaviour of the external `numpy.memmap` / CPython `mmap`
layer that `open_memmap` delegates to is modelled explicitly
(see `npMemmap`).
-/

namespace Cgp

/-! ## ChunkIndexer: the pure index computation of `memmap_chunk_ind`
(`load_memmap_offset.py` lines 79-88). -/

/-- Errors of the chunk indexer.  `invalidInput` models the uncaught
`IndexError` the source raises at `isort[0]` on an empty index collection;
`nonContiguous` models `AssertionError("Indices not contiguous")`. -/
inductive ChunkError where
  | invalidInput
  | nonContiguous
  deriving DecidableEq, Repr

/-- `isort = sorted(indices)` (line 80). -/
def sortedIndices (indices : List Int) : List Int :=
  List.insertionSort (· ≤ ·) indices

/-- `np.arange(lo, hi)` on integers: the list `lo, lo+1, ..., hi-1`. -/
def arange (lo hi : Int) : List Int :=
  (List.range (hi - lo).toNat).map (fun i => lo + Int.ofNat i)

/-- The body of `memmap_chunk_ind` after sorting, given `n = len(indices)`
and the sorted indices `a :: t`:
`offset = isort[0]`, `shape = 1 + isort[-1] - offset` (lines 81-82); with
the contiguity check on, raise unless `len(indices) == shape` and
`isort == np.arange(offset, 1 + isort[-1])` elementwise (lines 83-86). -/
def coveringRangeGo (n : Nat) (a : Int) (t : List Int) (check : Bool) :
    Except ChunkError (Int × Int) :=
  if check then
    if (n : Int) ≠ 1 + (a :: t).getLast (List.cons_ne_nil a t) - a ∨
        a :: t ≠ arange a (1 + (a :: t).getLast (List.cons_ne_nil a t)) then
      .error .nonContiguous
    else
      .ok (a, 1 + (a :: t).getLast (List.cons_ne_nil a t) - a)
  else
    .ok (a, 1 + (a :: t).getLast (List.cons_ne_nil a t) - a)

/-- The `(offset, shape)` computation of `memmap_chunk_ind`
(lines 79-86); the resulting pair is what the source passes on to
`open_memmap(filename, mode, offset=offset, shape=shape)`. -/
def coveringRange (indices : List Int) (check : Bool) :
    Except ChunkError (Int × Int) :=
  match sortedIndices indices with
  | [] => .error .invalidInput
  | a :: t => coveringRangeGo indices.length a t check

/-! ## The array-file model and `open_memmap`
(`load_memmap_offset.py` lines 90-202). -/

/-- The slice of a numpy `dtype` that `open_memmap` consults: the element
size in bytes (`dtype.itemsize`) and whether the element type embeds
Python object references (`dtype.hasobject`). -/
structure Dtype where
  itemsize : Nat
  hasobject : Bool
  deriving DecidableEq, Repr

/-- A `.npy` file on disk, abstracted to the fields the code reads:
the version from the magic bytes, the byte offset of the data
(`fp.tell()` after the header, called `headerLen` here), the header's
shape / order / dtype record, and the element data flattened to a list.
`extraBytes` counts bytes past the element data, produced when
`numpy.memmap` in a write-capable mode grows the file. -/
structure NpyFile where
  version : Nat × Nat
  headerLen : Nat
  fullshape : List Int
  fortranOrder : Bool
  dtype : Dtype
  data : List Int
  extraBytes : Nat
  deriving DecidableEq, Repr

/-- Total byte length of the file. -/
def NpyFile.flen (f : NpyFile) : Nat :=
  f.headerLen + f.data.length * f.dtype.itemsize + f.extraBytes

/-- The file modes `open_memmap` handles: `'r'`, `'r+'`, `'c'`, `'w+'`. -/
inductive Mode where
  | r
  | rplus
  | c
  | wplus
  deriving DecidableEq, Repr

/-- `'w' in mode` (line 141). -/
def Mode.hasW : Mode → Bool
  | .wplus => true
  | _ => false

/-- A live memory-mapped view: the byte offset into the file where the
mapping starts, its shape, dtype and mode — the arguments the source
passes to `np.memmap` at lines 199-200. -/
structure View where
  byteOffset : Int
  shape : List Int
  dtype : Dtype
  mode : Mode
  deriving DecidableEq, Repr

/-- The failures of `open_memmap` and of the `numpy.memmap` layer under it.
`offsetWithCreate` is the `assert offset == 0` of line 142;
`unsupportedVersion` the `ValueError` of lines 145-147 and 172-174;
`objectDtype` the `ValueError` of lines 151-153 and 182-184;
`indexError` the `shape[0]` access on an empty stored shape (line 180);
`invalidShape` numpy's rejection of a negative dimension size;
`mmapBounds` CPython's `mmap` error when the requested range extends past
the end of the file. -/
inductive OpenError where
  | offsetWithCreate
  | unsupportedVersion
  | objectDtype
  | indexError
  | invalidShape
  | mmapBounds
  deriving DecidableEq, Repr

/-- Modelled from the semantics of `numpy.memmap.__new__` (numpy 1.x, the
Python-2 numpy this module is written against), which `open_memmap`
delegates to at lines 199-200: with `size` the product of the shape's
dimensions, `bytes = offset + size * itemsize`; when
`mode == 'w+' or (mode == 'r+' and flen < bytes)` the file is grown to
`bytes` before mapping; otherwise CPython's `mmap.mmap` raises
`ValueError("mmap length is greater than file size")` when the requested
range does not fit in the file.  Negative dimensions and a negative byte
offset are rejected. -/
def npMemmap (f : NpyFile) (dtype : Dtype) (shape : List Int) (mode : Mode)
    (offset : Int) : Except OpenError (View × NpyFile) :=
  if shape.any (fun d => d < 0) then .error .invalidShape
  else if offset < 0 then .error .mmapBounds
  else if mode = .wplus ∨ (mode = .rplus ∧
      (f.flen : Int) < offset + shape.prod * dtype.itemsize) then
    .ok ({ byteOffset := offset, shape := shape, dtype := dtype,
           mode := mode },
         { f with extraBytes := f.extraBytes +
             (offset + shape.prod * dtype.itemsize - f.flen).toNat })
  else if (f.flen : Int) < offset + shape.prod * dtype.itemsize then
    .error .mmapBounds
  else
    .ok ({ byteOffset := offset, shape := shape, dtype := dtype,
           mode := mode }, f)

/-- The shape computation of the read branch (lines 176-181): if no shape
is passed, use the stored shape; if additionally `offset` is nonzero,
subtract `offset` from the stored outer dimension (`shape[0]` on an empty
stored shape raises, modelled as `indexError`). -/
def shapeResolve (f : NpyFile) (shape : Option (List Int)) (offset : Int) :
    Except OpenError (List Int) :=
  match shape with
  | some s => .ok s
  | none =>
    if offset ≠ 0 then
      match f.fullshape with
      | [] => .error .indexError
      | d0 :: rest => .ok ((d0 - offset) :: rest)
    else .ok f.fullshape

/-- The read branch of `open_memmap` (lines 167-202): check the version
from the magic bytes, resolve the shape, reject object dtypes, convert
the element offset to the byte offset
`fp.tell() + offset * dtype.itemsize` (line 185), and hand everything to
`numpy.memmap`. -/
def openMemmapRead (f : NpyFile) (mode : Mode) (shape : Option (List Int))
    (offset : Int) : Except OpenError (View × NpyFile) :=
  if f.version ≠ (1, 0) then .error .unsupportedVersion
  else
    match shapeResolve f shape offset with
    | .error e => .error e
    | .ok shape' =>
      if f.dtype.hasobject then .error .objectDtype
      else
        npMemmap f f.dtype shape' mode
          ((f.headerLen : Int) + offset * f.dtype.itemsize)

/-- The write branch of `open_memmap` (lines 141-166) together with the
state of the file system at the path: `assert offset == 0`, then the
version gate, then the object-dtype gate — all three *before* the
`open(filename, mode+'b')` of line 160, so on those errors the second
component is `none` (no file exists).  On success the file is created
holding just the header (`headerLen` bytes, the value `fp.tell()` returns
at line 164), the mode is switched from `'w+'` to `'r+'` (lines 196-197),
and `numpy.memmap` grows the file to hold the data. -/
def openMemmapWriteFs (dtype : Dtype) (shape : List Int)
    (fortranOrder : Bool) (version : Nat × Nat) (offset : Int)
    (headerLen : Nat) :
    Except OpenError (View × NpyFile) × Option NpyFile :=
  if offset ≠ 0 then (.error .offsetWithCreate, none)
  else if version ≠ (1, 0) then (.error .unsupportedVersion, none)
  else if dtype.hasobject then (.error .objectDtype, none)
  else
    let f : NpyFile :=
      { version := version, headerLen := headerLen, fullshape := shape,
        fortranOrder := fortranOrder, dtype := dtype, data := [],
        extraBytes := 0 }
    match npMemmap f dtype shape .rplus (headerLen : Int) with
    | .ok (v, f') => (.ok (v, f'), some f')
    | .error e => (.error e, some f)

/-- The file element index addressed by element `i` of a one-dimensional
view: the view's bytes start at `v.byteOffset`, element `i` lies
`i * itemsize` bytes further, and the file's element data starts at byte
`headerLen`. -/
def View.elemIndex (v : View) (f : NpyFile) (i : Nat) : Nat :=
  ((v.byteOffset - (f.headerLen : Int)) / (v.dtype.itemsize : Int)
    + (i : Int)).toNat

/-- Reading element `i` of a one-dimensional view. -/
def viewRead (f : NpyFile) (v : View) (i : Nat) : Option Int :=
  f.data[v.elemIndex f i]?

/-- Writing `x` through element `i` of a one-dimensional read-write view:
the store lands in the underlying file. -/
def viewWrite (f : NpyFile) (v : View) (i : Nat) (x : Int) : NpyFile :=
  { f with data := f.data.set (v.elemIndex f i) x }

/-- The view `open_memmap` produces on the read path for a 1-D file:
byte offset `headerLen + k * itemsize` and the given outer length. -/
def offsetView (f : NpyFile) (k : Nat) (outerLen : Int) : View :=
  { byteOffset := (f.headerLen : Int) + (k : Int) * (f.dtype.itemsize : Int),
    shape := [outerLen], dtype := f.dtype, mode := .rplus }

/-- A sample well-formed 1-D file of four 8-byte elements. -/
def c1File : NpyFile :=
  { version := (1, 0), headerLen := 80, fullshape := [4],
    fortranOrder := false, dtype := { itemsize := 8, hasobject := false },
    data := [10, 20, 30, 40], extraBytes := 0 }

/-- A sample well-formed 1-D file of three 8-byte elements. -/
def c4File1d : NpyFile :=
  { version := (1, 0), headerLen := 80, fullshape := [3],
    fortranOrder := false, dtype := { itemsize := 8, hasobject := false },
    data := [0, 0, 0], extraBytes := 0 }

/-- A sample well-formed 2-D file of shape 3 x 10 with 8-byte elements. -/
def c4File2d : NpyFile :=
  { version := (1, 0), headerLen := 80, fullshape := [3, 10],
    fortranOrder := false, dtype := { itemsize := 8, hasobject := false },
    data := List.replicate 30 0, extraBytes := 0 }

/-! ## The top-level `load` dispatcher
(`load_memmap_offset.py` lines 204-293). -/

/-- `'PK\x03\x04'`, the zip-archive signature (line 277). -/
def ZIP_PREFIX : List Nat := [0x50, 0x4B, 0x03, 0x04]

/-- `'\x93NUMPY'`, `np.lib.format.MAGIC_PREFIX` (line 278). -/
def MAGIC_PREFIX : List Nat := [0x93, 0x4E, 0x55, 0x4D, 0x50, 0x59]

/-- Which branch of `load` handled the stream.  `npzMapping` is the
`NpzFile(fid)` of line 282, a lazy name-to-array mapping;
`delegatedMemmap` delegates to `open_memmap` with the given mode, offset
and shape (line 285); `delegatedReadArray` materializes the array in
memory via `read_array` (line 287); `delegatedPickle` is a successful
generic-deserializer fallback (line 290). -/
inductive LoadOutcome where
  | npzMapping
  | delegatedMemmap
  | delegatedReadArray
  | delegatedPickle
  deriving DecidableEq, Repr

/-- `load`'s own failures: the
`ValueError("Offset and shape should be used only with mmap_mode")` of
lines 264-265, and the `IOError("Failed to interpret file ... as a
pickle")` of lines 292-293. -/
inductive LoadError where
  | offsetWithoutMmap
  | formatUnrecognized
  deriving DecidableEq, Repr

/-- The `load` dispatcher (lines 204-293) over the stream's bytes.
`pickleOk` abstracts whether the external generic deserializer
(`np.lib.npyio._cload`) accepts the stream.  The source reads the first
six bytes, tests `startswith(ZIP_PREFIX)`, then equality with
`MAGIC_PREFIX`, then falls back to the deserializer. -/
def load (stream : List Nat) (pickleOk : Bool) (mmapMode : Option Mode)
    (offset : Int) (shape : Option (List Int)) :
    Except LoadError LoadOutcome :=
  if mmapMode = none ∧ (offset ≠ 0 ∨ shape ≠ none) then
    .error .offsetWithoutMmap
  else if ZIP_PREFIX.isPrefixOf (stream.take 6) then .ok .npzMapping
  else if stream.take 6 = MAGIC_PREFIX then
    if mmapMode.isSome then .ok .delegatedMemmap
    else .ok .delegatedReadArray
  else if pickleOk then .ok .delegatedPickle
  else .error .formatUnrecognized

/-! ## Helper lemmas about `sortedIndices` and `arange`. -/

theorem sortedIndices_sorted (l : List Int) :
    (sortedIndices l).Sorted (· ≤ ·) :=
  List.sorted_insertionSort _ l

theorem sortedIndices_perm (l : List Int) : (sortedIndices l).Perm l :=
  List.perm_insertionSort _ l

theorem sorted_head_le {a : Int} {t : List Int}
    (hs : (a :: t).Sorted (· ≤ ·)) {x : Int} (hx : x ∈ a :: t) : a ≤ x := by
  rcases List.mem_cons.mp hx with rfl | hx'
  · exact le_refl x
  · exact List.rel_of_sorted_cons hs x hx'

theorem sorted_le_getLast {l : List Int} (hs : l.Sorted (· ≤ ·)) {x : Int}
    (hx : x ∈ l) (hne : l ≠ []) : x ≤ l.getLast hne := by
  obtain ⟨i, hi⟩ := List.mem_iff_get.mp hx
  have hpos : 0 < l.length := List.length_pos.mpr hne
  have hlt : l.length - 1 < l.length := by omega
  have hgl : l.getLast hne = l.get ⟨l.length - 1, hlt⟩ := by
    rw [List.getLast_eq_getElem]
    rfl
  rw [hgl]
  subst hi
  exact hs.rel_get_of_le (by simp [Fin.le_def]; omega)

theorem arange_nodup (lo hi : Int) : (arange lo hi).Nodup := by
  have hinj : Function.Injective (fun i : Nat => lo + Int.ofNat i) := by
    intro i j h
    have h' : lo + Int.ofNat i = lo + Int.ofNat j := h
    exact Int.ofNat.inj (add_left_cancel h')
  unfold arange
  exact (List.nodup_range _).map hinj

/-- Reduction of `coveringRange` once the sorted indices are known. -/
theorem coveringRange_eq_go {indices : List Int} {a : Int} {t : List Int}
    (hsort : sortedIndices indices = a :: t) (c : Bool) :
    coveringRange indices c = coveringRangeGo indices.length a t c := by
  unfold coveringRange
  rw [hsort]

/-- Every `.ok` result of `coveringRange` is the pair
(minimum index, maximum index - minimum index + 1). -/
theorem coveringRange_ok_spec (indices : List Int) (c : Bool) (p : Int × Int)
    (h : coveringRange indices c = .ok p) :
    p.1 ∈ indices ∧ (∀ i ∈ indices, p.1 ≤ i) ∧
      p.1 + p.2 - 1 ∈ indices ∧ ∀ i ∈ indices, i ≤ p.1 + p.2 - 1 := by
  cases hsort : sortedIndices indices with
  | nil =>
    have hnil : coveringRange indices c = .error .invalidInput := by
      unfold coveringRange
      rw [hsort]
    rw [hnil] at h
    exact Except.noConfusion h
  | cons a t =>
    rw [coveringRange_eq_go hsort] at h
    have hmem : ∀ y : Int, y ∈ a :: t ↔ y ∈ indices := by
      intro y
      rw [← hsort]
      exact (sortedIndices_perm indices).mem_iff
    have hsorted : (a :: t).Sorted (· ≤ ·) := by
      rw [← hsort]
      exact sortedIndices_sorted indices
    have hne := List.cons_ne_nil a t
    have hp : p = (a, 1 + (a :: t).getLast hne - a) := by
      unfold coveringRangeGo at h
      by_cases hchk : c = true
      · rw [hchk, if_pos rfl] at h
        split at h
        · exact Except.noConfusion h
        · exact (Except.ok.inj h).symm
      · rw [Bool.not_eq_true] at hchk
        rw [hchk] at h
        simp only [Bool.false_eq_true, if_false] at h
        exact (Except.ok.inj h).symm
    subst hp
    refine ⟨(hmem a).mp (List.mem_cons_self a t),
      fun i hi => sorted_head_le hsorted ((hmem i).mpr hi), ?_, ?_⟩
    · have harith : a + (1 + (a :: t).getLast hne - a) - 1 =
          (a :: t).getLast hne := by ring
      rw [harith]
      exact (hmem _).mp (List.getLast_mem hne)
    · intro i hi
      have := sorted_le_getLast hsorted ((hmem i).mpr hi) hne
      omega

/-! ## Claims about the chunk indexer. -/

/-- C2: for every non-empty index collection, `coveringRange` computes
the offset as the minimum index and the length as maximum - minimum + 1,
independently of the order the indices are given in; with the contiguity
check disabled it never raises; `coveringRange {2,3,4}` returns `(2,3)`
and `coveringRange {1,3,4}` with the check disabled returns `(1,4)`. -/
theorem c2_coveringRange_min_max (indices indices2 : List Int) (c : Bool)
    (hne : indices ≠ []) (hperm : indices.Perm indices2) :
    (∀ p, coveringRange indices c = .ok p →
      p.1 ∈ indices ∧ (∀ i ∈ indices, p.1 ≤ i) ∧
        p.1 + p.2 - 1 ∈ indices ∧ ∀ i ∈ indices, i ≤ p.1 + p.2 - 1) ∧
    (∃ p, coveringRange indices false = .ok p) ∧
    coveringRange indices c = coveringRange indices2 c ∧
    coveringRange [2, 3, 4] true = .ok (2, 3) ∧
    coveringRange [1, 3, 4] false = .ok (1, 4) := by
  refine ⟨fun p h => coveringRange_ok_spec indices c p h, ?_, ?_, rfl, rfl⟩
  · cases hsort : sortedIndices indices with
    | nil =>
      have h0 : indices.length = 0 := by
        have hlen := (sortedIndices_perm indices).length_eq
        rw [hsort] at hlen
        exact hlen.symm
      exact absurd (List.length_eq_zero.mp h0) hne
    | cons a t =>
      refine ⟨(a, 1 + (a :: t).getLast (List.cons_ne_nil a t) - a), ?_⟩
      rw [coveringRange_eq_go hsort]
      rfl
  · have hs : sortedIndices indices = sortedIndices indices2 :=
      List.eq_of_perm_of_sorted
        ((sortedIndices_perm indices).trans
          (hperm.trans (sortedIndices_perm indices2).symm))
        (sortedIndices_sorted _) (sortedIndices_sorted _)
    have hl : indices.length = indices2.length := hperm.length_eq
    unfold coveringRange
    rw [hs, hl]

theorem c2_witness :
    (∀ p, coveringRange [3, 1, 2] true = .ok p →
      p.1 ∈ [3, 1, 2] ∧ (∀ i ∈ [3, 1, 2], p.1 ≤ i) ∧
        p.1 + p.2 - 1 ∈ [3, 1, 2] ∧ ∀ i ∈ [3, 1, 2], i ≤ p.1 + p.2 - 1) ∧
    (∃ p, coveringRange [3, 1, 2] false = .ok p) ∧
    coveringRange [3, 1, 2] true = coveringRange [1, 2, 3] true ∧
    coveringRange [2, 3, 4] true = .ok (2, 3) ∧
    coveringRange [1, 3, 4] false = .ok (1, 4) :=
  c2_coveringRange_min_max [3, 1, 2] [1, 2, 3] true (by decide) (by decide)

/-- C3: with the contiguity check enabled, `coveringRange` raises the
non-contiguous-index error exactly when it is not the case that the
number of indices equals the computed length and the ascending sort is
exactly `offset, offset+1, ..., offset+length-1`; when it does not
raise it returns `(offset, length)`. -/
theorem c3_contiguity_check_iff (indices : List Int) (offset lst : Int)
    (hh : (sortedIndices indices).head? = some offset)
    (hl : (sortedIndices indices).getLast? = some lst) :
    (coveringRange indices true = .error .nonContiguous ↔
      ¬((indices.length : Int) = 1 + lst - offset ∧
        sortedIndices indices = arange offset (1 + lst))) ∧
    (coveringRange indices true ≠ .error .nonContiguous →
      coveringRange indices true = .ok (offset, 1 + lst - offset)) := by
  cases hsort : sortedIndices indices with
  | nil =>
    rw [hsort] at hh
    exact Option.noConfusion hh
  | cons a t =>
    rw [hsort] at hh hl
    obtain rfl : a = offset := by simpa using hh
    have hne := List.cons_ne_nil a t
    have hlst : (a :: t).getLast hne = lst := by
      rw [List.getLast?_eq_getLast _ hne] at hl
      simpa using hl
    rw [coveringRange_eq_go hsort]
    unfold coveringRangeGo
    rw [if_pos rfl, hlst]
    by_cases hcond : (indices.length : Int) ≠ 1 + lst - a ∨
        a :: t ≠ arange a (1 + lst)
    · rw [if_pos hcond]
      refine ⟨⟨fun _ => ?_, fun _ => rfl⟩, fun hcontra => absurd rfl hcontra⟩
      rcases hcond with hcond | hcond
      · exact fun hand => hcond hand.1
      · exact fun hand => hcond hand.2
    · rw [if_neg hcond]
      push_neg at hcond
      refine ⟨⟨fun hcontra => Except.noConfusion hcontra, ?_⟩,
        fun _ => rfl⟩
      intro hcontra
      exact absurd ⟨hcond.1, hcond.2⟩ hcontra

theorem c3_witness :
    (coveringRange [2, 4, 3] true = .error .nonContiguous ↔
      ¬((([2, 4, 3] : List Int).length : Int) = 1 + 4 - 2 ∧
        sortedIndices [2, 4, 3] = arange 2 (1 + 4))) ∧
    (coveringRange [2, 4, 3] true ≠ .error .nonContiguous →
      coveringRange [2, 4, 3] true = .ok (2, 1 + 4 - 2)) :=
  c3_contiguity_check_iff [2, 4, 3] 2 4 (by decide) (by decide)

/-- C9: `coveringRange` on an empty index collection fails with the
invalid-input error (the source dies with an uncaught `IndexError` at
`isort[0]`), with either value of the contiguity flag. -/
theorem c9_empty_indices_invalid :
    coveringRange [] true = .error .invalidInput ∧
    coveringRange [] false = .error .invalidInput :=
  ⟨rfl, rfl⟩

/-- C10: an index collection containing a duplicate always trips the
contiguity check, even when the number of indices equals the covering
length: for `{2,2,4}` the count is 3 and the covering length is 3
(`coveringRange {2,2,4}` with the check disabled returns `(2,3)`), yet
the check raises, because the sorted indices are also compared
element-wise against the exact expected range. -/
theorem c10_duplicates_non_contiguous (indices : List Int)
    (hdup : ¬ indices.Nodup) :
    coveringRange indices true = .error .nonContiguous ∧
    coveringRange [2, 2, 4] true = .error .nonContiguous ∧
    coveringRange [2, 2, 4] false = .ok (2, 3) := by
  refine ⟨?_, rfl, rfl⟩
  cases hsort : sortedIndices indices with
  | nil =>
    have h1 : (sortedIndices indices).Nodup := by
      rw [hsort]
      exact List.nodup_nil
    exact absurd ((sortedIndices_perm indices).nodup_iff.mp h1) hdup
  | cons a t =>
    have hsortdup : ¬ (a :: t).Nodup := by
      intro hcontra
      have h1 : (sortedIndices indices).Nodup := by
        rw [hsort]
        exact hcontra
      exact hdup ((sortedIndices_perm indices).nodup_iff.mp h1)
    have hnee : a :: t ≠
        arange a (1 + (a :: t).getLast (List.cons_ne_nil a t)) := by
      intro hcontra
      exact hsortdup (hcontra ▸ arange_nodup _ _)
    rw [coveringRange_eq_go hsort]
    unfold coveringRangeGo
    rw [if_pos rfl, if_pos (Or.inr hnee)]

theorem c10_witness :
    coveringRange [2, 2, 4] true = .error .nonContiguous ∧
    coveringRange [2, 2, 4] true = .error .nonContiguous ∧
    coveringRange [2, 2, 4] false = .ok (2, 3) :=
  c10_duplicates_non_contiguous [2, 2, 4] (by decide)

/-- `numpy.memmap` leaves the file unchanged and returns the requested
view when the shape is non-negative, the byte offset is non-negative,
the requested range fits in the file, and the mode is not `w+`. -/
theorem npMemmap_ok (f : NpyFile) (dtype : Dtype) (shape : List Int)
    (mode : Mode) (offset : Int)
    (hdims : shape.any (fun d => d < 0) = false)
    (hoff : ¬ offset < 0)
    (hfit : ¬ (f.flen : Int) < offset + shape.prod * dtype.itemsize)
    (hmode : mode ≠ .wplus) :
    npMemmap f dtype shape mode offset =
      .ok ({ byteOffset := offset, shape := shape, dtype := dtype,
             mode := mode }, f) := by
  have hc1 : ¬ (mode = .wplus ∨ (mode = .rplus ∧
      (f.flen : Int) < offset + shape.prod * dtype.itemsize)) := by
    rintro (h | ⟨_, h⟩)
    · exact hmode h
    · exact hfit h
  unfold npMemmap
  rw [if_neg (by simp [hdims]), if_neg hoff, if_neg hc1, if_neg hfit]

/-- Byte length of a well-formed 1-D file of `N` elements. -/
theorem flen_eq_of_1d (f : NpyFile) (N : Nat)
    (hdata : f.data.length = N) (hextra : f.extraBytes = 0) :
    (f.flen : Int) = (f.headerLen : Int) +
      (N : Int) * (f.dtype.itemsize : Int) := by
  unfold NpyFile.flen
  rw [hdata, hextra]
  push_cast
  ring

/-! ## Claims about `open_memmap`. -/

/-- C6: any version pair other than `(1,0)` makes both the header-writing
path (the version check at lines 145-147, before the file is opened) and
the header-reading path (the check at lines 172-174, before the header
record is even parsed) fail with the unsupported-version error: with any
dtype, shape and order on the write side, and with any stored header,
requested shape, mode and offset on the read side. -/
theorem c6_version_gate (version : Nat × Nat) (hv : version ≠ (1, 0)) :
    (∀ (dtype : Dtype) (shape : List Int) (fortranOrder : Bool)
        (headerLen : Nat),
      openMemmapWriteFs dtype shape fortranOrder version 0 headerLen =
        (.error .unsupportedVersion, none)) ∧
    (∀ (f : NpyFile) (mode : Mode) (shape : Option (List Int))
        (offset : Int), f.version = version →
      openMemmapRead f mode shape offset = .error .unsupportedVersion) := by
  constructor
  · intro dtype shape fortranOrder headerLen
    unfold openMemmapWriteFs
    rw [if_neg (by simp), if_pos hv]
  · intro f mode shape offset hf
    unfold openMemmapRead
    rw [if_pos (hf ▸ hv)]

theorem c6_witness :
    (∀ (dtype : Dtype) (shape : List Int) (fortranOrder : Bool)
        (headerLen : Nat),
      openMemmapWriteFs dtype shape fortranOrder (2, 0) 0 headerLen =
        (.error .unsupportedVersion, none)) ∧
    (∀ (f : NpyFile) (mode : Mode) (shape : Option (List Int))
        (offset : Int), f.version = (2, 0) →
      openMemmapRead f mode shape offset = .error .unsupportedVersion) :=
  c6_version_gate (2, 0) (by decide)

/-- C7: creating a file with an element descriptor that embeds object
references fails with the mapping-unsafe-type error, and the check (line
151) runs before the `open(filename, mode+'b')` of line 160, so the
second component — the file at the path after the call — is `none`: the
file system is unchanged. -/
theorem c7_unsafe_dtype_no_file (dtype : Dtype) (shape : List Int)
    (fortranOrder : Bool) (headerLen : Nat)
    (hobj : dtype.hasobject = true) :
    openMemmapWriteFs dtype shape fortranOrder (1, 0) 0 headerLen =
      (.error .objectDtype, none) := by
  unfold openMemmapWriteFs
  rw [if_neg (by simp), if_neg (by simp), if_pos hobj]

theorem c7_witness :
    openMemmapWriteFs { itemsize := 8, hasobject := true } [3] false
      (1, 0) 0 70 = (.error .objectDtype, none) :=
  c7_unsafe_dtype_no_file { itemsize := 8, hasobject := true } [3] false 70
    (by decide)

/-! ## Claims about the `load` dispatcher. -/

/-- C5: with default offset and shape, `load` dispatches on the stream's
leading bytes: an archive-signature prefix yields the lazy name-to-array
mapping; a stream whose first six bytes are the array-format magic is
delegated to `open_memmap` when a map mode is given and fully
materialized by `read_array` otherwise; any other stream goes to the
generic fallback deserializer, and when that fails too, `load` raises
the format-unrecognized error. -/
theorem c5_load_dispatch (stream : List Nat) (pickleOk : Bool)
    (mmapMode : Option Mode) :
    (ZIP_PREFIX <+: stream →
      load stream pickleOk mmapMode 0 none = .ok .npzMapping) ∧
    (stream.take 6 = MAGIC_PREFIX →
      (mmapMode.isSome = true →
        load stream pickleOk mmapMode 0 none = .ok .delegatedMemmap) ∧
      (mmapMode = none →
        load stream pickleOk mmapMode 0 none = .ok .delegatedReadArray)) ∧
    (¬ ZIP_PREFIX <+: stream → stream.take 6 ≠ MAGIC_PREFIX →
      (pickleOk = true →
        load stream pickleOk mmapMode 0 none = .ok .delegatedPickle) ∧
      (pickleOk = false →
        load stream pickleOk mmapMode 0 none =
          .error .formatUnrecognized)) := by
  refine ⟨?_, ?_, ?_⟩
  · intro hzip
    have hz : ZIP_PREFIX.isPrefixOf (stream.take 6) = true := by
      rw [List.isPrefixOf_iff_prefix, List.prefix_take_iff]
      exact ⟨hzip, by decide⟩
    unfold load
    rw [if_neg (by simp), if_pos hz]
  · intro hmagic
    have hz : ¬ ZIP_PREFIX.isPrefixOf (stream.take 6) = true := by
      rw [hmagic]
      decide
    constructor
    · intro hsome
      unfold load
      rw [if_neg (by simp), if_neg hz, if_pos hmagic, if_pos hsome]
    · intro hnone
      unfold load
      rw [if_neg (by simp), if_neg hz, if_pos hmagic,
        if_neg (by simp [hnone])]
  · intro hnz hnm
    have hz : ¬ ZIP_PREFIX.isPrefixOf (stream.take 6) = true := by
      intro hcontra
      exact hnz
        ((List.prefix_take_iff.mp (List.isPrefixOf_iff_prefix.mp hcontra)).1)
    constructor
    · intro hpk
      unfold load
      rw [if_neg (by simp), if_neg hz, if_neg hnm, if_pos hpk]
    · intro hpk
      unfold load
      rw [if_neg (by simp), if_neg hz, if_neg hnm, if_neg (by simp [hpk])]

theorem c5_witness :
    load [0x50, 0x4B, 0x03, 0x04, 9, 9] true (some .r) 0 none =
      .ok .npzMapping ∧
    load [0x93, 0x4E, 0x55, 0x4D, 0x50, 0x59, 1, 0] true (some .r) 0 none =
      .ok .delegatedMemmap ∧
    load [0x93, 0x4E, 0x55, 0x4D, 0x50, 0x59] true none 0 none =
      .ok .delegatedReadArray ∧
    load [1, 2, 3] true none 0 none = .ok .delegatedPickle ∧
    load [1, 2, 3] false none 0 none = .error .formatUnrecognized :=
  ⟨(c5_load_dispatch _ _ _).1 ⟨[9, 9], rfl⟩,
   ((c5_load_dispatch [0x93, 0x4E, 0x55, 0x4D, 0x50, 0x59, 1, 0] true
       (some .r)).2.1 (by decide)).1 rfl,
   ((c5_load_dispatch [0x93, 0x4E, 0x55, 0x4D, 0x50, 0x59] true
       none).2.1 (by decide)).2 rfl,
   ((c5_load_dispatch [1, 2, 3] true none).2.2 (by decide) (by decide)).1
     rfl,
   ((c5_load_dispatch [1, 2, 3] false none).2.2 (by decide) (by decide)).2
     rfl⟩

/-- C8, counterexample to the claim as stated: the claim (with the spec)
says a nonzero element offset is also an error when the map mode is set
but the stream's detected format is not the array format; but `load`
checks offset/shape only against `mmap_mode` (lines 264-265), so a
zip-signature stream with a map mode and a nonzero offset is answered
with the lazy archive mapping, and a pickle-format stream likewise falls
through to the deserializer with the offset silently ignored. -/
theorem c8_counterexample :
    load [0x50, 0x4B, 0x03, 0x04, 9, 9] true (some .r) 2 none =
      .ok .npzMapping ∧
    load [1, 2, 3] true (some .r) 2 (some [5]) = .ok .delegatedPickle :=
  ⟨rfl, rfl⟩

/-- C8 amended: a nonzero offset or a shape override with the map mode
unset raises the mapping-argument-without-mapping error; with the map
mode set, a stream whose format is not the array format is processed
normally — the offset and shape are silently ignored: an
archive-signature stream still yields the lazy mapping, and any other
non-magic stream still goes to the fallback deserializer (raising
format-unrecognized only when that fails). -/
theorem c8_offset_requires_mmap (stream : List Nat) (pickleOk : Bool)
    (mmapMode : Option Mode) (offset : Int) (shape : Option (List Int)) :
    (mmapMode = none → offset ≠ 0 ∨ shape ≠ none →
      load stream pickleOk mmapMode offset shape =
        .error .offsetWithoutMmap) ∧
    (mmapMode.isSome = true → ZIP_PREFIX <+: stream →
      load stream pickleOk mmapMode offset shape = .ok .npzMapping) ∧
    (mmapMode.isSome = true → ¬ ZIP_PREFIX <+: stream →
      stream.take 6 ≠ MAGIC_PREFIX →
      load stream pickleOk mmapMode offset shape =
        if pickleOk then .ok .delegatedPickle
        else .error .formatUnrecognized) := by
  refine ⟨?_, ?_, ?_⟩
  · intro hnone harg
    unfold load
    rw [if_pos ⟨hnone, harg⟩]
  · intro hsome hzip
    have hz : ZIP_PREFIX.isPrefixOf (stream.take 6) = true := by
      rw [List.isPrefixOf_iff_prefix, List.prefix_take_iff]
      exact ⟨hzip, by decide⟩
    have hns : ¬ mmapMode = none := by
      intro hcontra
      rw [hcontra] at hsome
      exact Bool.noConfusion hsome
    unfold load
    rw [if_neg (by simp [hns]), if_pos hz]
  · intro hsome hnz hnm
    have hz : ¬ ZIP_PREFIX.isPrefixOf (stream.take 6) = true := by
      intro hcontra
      exact hnz
        ((List.prefix_take_iff.mp (List.isPrefixOf_iff_prefix.mp hcontra)).1)
    have hns : ¬ mmapMode = none := by
      intro hcontra
      rw [hcontra] at hsome
      exact Bool.noConfusion hsome
    unfold load
    rw [if_neg (by simp [hns]), if_neg hz, if_neg hnm]

theorem c8_witness :
    load [1, 2, 3] true none 2 none = .error .offsetWithoutMmap ∧
    load [0x50, 0x4B, 0x03, 0x04, 9, 9] false (some .r) 2 (some [5]) =
      .ok .npzMapping ∧
    load [1, 2, 3] false (some .r) 2 (some [5]) =
      (if false = true then Except.ok LoadOutcome.delegatedPickle
       else .error .formatUnrecognized) :=
  ⟨(c8_offset_requires_mmap _ _ _ _ _).1 rfl (Or.inl (by decide)),
   (c8_offset_requires_mmap _ _ _ _ _).2.1 rfl ⟨[9, 9], rfl⟩,
   (c8_offset_requires_mmap [1, 2, 3] false (some .r) 2 (some [5])).2.2
     rfl (by decide) (by decide)⟩

/-- C1: for a well-formed 1-D file of `N` elements, opening in ReadWrite
mode at element offset `k < N` yields exactly the view with byte offset
`dataOffset + k * itemsize` and outer dimension `N - k` (or the override
`L` when given, `k + L ≤ N`), leaving the file untouched; element 0 of
that view is element `k` of the stored data; and writing `x` through
view element 0 then reopening at offset 0 shows `x` at index `k`. -/
theorem c1_offset_correctness (f : NpyFile) (N k L : Nat) (x : Int)
    (hver : f.version = (1, 0))
    (hobj : f.dtype.hasobject = false)
    (hit : 0 < f.dtype.itemsize)
    (hshape : f.fullshape = [(N : Int)])
    (hdata : f.data.length = N)
    (hextra : f.extraBytes = 0)
    (hk : k < N)
    (hkL : k + L ≤ N) :
    openMemmapRead f .rplus none (k : Int) =
      .ok (offsetView f k ((N : Int) - (k : Int)), f) ∧
    openMemmapRead f .rplus (some [(L : Int)]) (k : Int) =
      .ok (offsetView f k (L : Int), f) ∧
    (offsetView f k ((N : Int) - (k : Int))).byteOffset =
      (f.headerLen : Int) + (k : Int) * (f.dtype.itemsize : Int) ∧
    viewRead f (offsetView f k ((N : Int) - (k : Int))) 0 = f.data[k]? ∧
    (f.data[k]?).isSome = true ∧
    openMemmapRead (viewWrite f (offsetView f k ((N : Int) - (k : Int))) 0 x)
        .rplus none 0 =
      .ok (offsetView
             (viewWrite f (offsetView f k ((N : Int) - (k : Int))) 0 x)
             0 (N : Int),
           viewWrite f (offsetView f k ((N : Int) - (k : Int))) 0 x) ∧
    viewRead (viewWrite f (offsetView f k ((N : Int) - (k : Int))) 0 x)
      (offsetView (viewWrite f (offsetView f k ((N : Int) - (k : Int))) 0 x)
        0 (N : Int)) k = some x := by
  have hitI : (0 : Int) < (f.dtype.itemsize : Int) := by exact_mod_cast hit
  have hitne : (f.dtype.itemsize : Int) ≠ 0 := hitI.ne'
  have hflen : (f.flen : Int) = (f.headerLen : Int) +
      (N : Int) * (f.dtype.itemsize : Int) := flen_eq_of_1d f N hdata hextra
  have hnv : ¬ (f.version ≠ (1, 0)) := by simp [hver]
  have hno : ¬ (f.dtype.hasobject = true) := by simp [hobj]
  have hidxg : ∀ (g : NpyFile) (j m : Nat) (len : Int),
      g.dtype = f.dtype → (offsetView g j len).elemIndex g m = j + m := by
    intro g j m len hg
    unfold View.elemIndex offsetView
    rw [hg]
    have h1 : (g.headerLen : Int) +
        (j : Int) * (f.dtype.itemsize : Int) - (g.headerLen : Int) =
        (j : Int) * (f.dtype.itemsize : Int) := by ring
    rw [h1, Int.mul_ediv_cancel _ hitne]
    omega
  have hs1 : shapeResolve f none (k : Int) =
      .ok [(N : Int) - (k : Int)] := by
    unfold shapeResolve
    by_cases hk0 : (k : Int) = 0
    · rw [if_neg (by simp [hk0]), hshape, hk0]
      norm_num
    · rw [if_pos hk0, hshape]
  have hdimsA : ([(N : Int) - (k : Int)].any (fun d => d < 0)) = false := by
    simp only [List.any_cons, List.any_nil, Bool.or_false,
      decide_eq_false_iff_not, not_lt]
    omega
  have hoffA : ¬ ((f.headerLen : Int) +
      (k : Int) * (f.dtype.itemsize : Int) < 0) := by
    push_neg
    positivity
  have hfitA : ¬ ((f.flen : Int) <
      ((f.headerLen : Int) + (k : Int) * (f.dtype.itemsize : Int)) +
        [(N : Int) - (k : Int)].prod * (f.dtype.itemsize : Int)) := by
    have heq : ((f.headerLen : Int) +
        (k : Int) * (f.dtype.itemsize : Int)) +
        [(N : Int) - (k : Int)].prod * (f.dtype.itemsize : Int) =
        (f.flen : Int) := by
      rw [hflen]
      simp only [List.prod_cons, List.prod_nil, mul_one]
      ring
    rw [heq]
    exact lt_irrefl _
  have hA : openMemmapRead f .rplus none (k : Int) =
      .ok (offsetView f k ((N : Int) - (k : Int)), f) := by
    unfold openMemmapRead
    rw [if_neg hnv]
    simp only [hs1]
    rw [if_neg hno]
    rw [npMemmap_ok f f.dtype _ .rplus _ hdimsA hoffA hfitA (by decide)]
    rfl
  have hdimsB : ([(L : Int)].any (fun d => d < 0)) = false := by
    simp only [List.any_cons, List.any_nil, Bool.or_false,
      decide_eq_false_iff_not, not_lt]
    omega
  have hfitB : ¬ ((f.flen : Int) <
      ((f.headerLen : Int) + (k : Int) * (f.dtype.itemsize : Int)) +
        [(L : Int)].prod * (f.dtype.itemsize : Int)) := by
    have hkLi : ((k : Int) + (L : Int)) * (f.dtype.itemsize : Int) ≤
        (N : Int) * (f.dtype.itemsize : Int) :=
      mul_le_mul_of_nonneg_right (by exact_mod_cast hkL) (by positivity)
    have hexp : ((k : Int) + (L : Int)) * (f.dtype.itemsize : Int) =
        (k : Int) * (f.dtype.itemsize : Int) +
        (L : Int) * (f.dtype.itemsize : Int) := add_mul _ _ _
    rw [hflen]
    simp only [List.prod_cons, List.prod_nil, mul_one]
    push_neg
    linarith
  have hB : openMemmapRead f .rplus (some [(L : Int)]) (k : Int) =
      .ok (offsetView f k (L : Int), f) := by
    unfold openMemmapRead
    rw [if_neg hnv]
    simp only [shapeResolve]
    rw [if_neg hno]
    rw [npMemmap_ok f f.dtype _ .rplus _ hdimsB hoffA hfitB (by decide)]
    rfl
  have hidx : (offsetView f k ((N : Int) - (k : Int))).elemIndex f 0 = k := by
    rw [hidxg f k 0 ((N : Int) - (k : Int)) rfl]
    omega
  have hD : viewRead f (offsetView f k ((N : Int) - (k : Int))) 0 =
      f.data[k]? := by
    unfold viewRead
    rw [hidx]
  have hE : (f.data[k]?).isSome = true := by
    rw [List.getElem?_eq_getElem (by rw [hdata]; exact hk)]
    rfl
  have hfdata : (viewWrite f (offsetView f k ((N : Int) - (k : Int))) 0
      x).data = f.data.set k x := by
    unfold viewWrite
    rw [hidx]
  have hdata' : (viewWrite f (offsetView f k ((N : Int) - (k : Int))) 0
      x).data.length = N := by
    rw [hfdata, List.length_set, hdata]
  have hflen' : ((viewWrite f (offsetView f k ((N : Int) - (k : Int))) 0
      x).flen : Int) = (f.headerLen : Int) +
      (N : Int) * (f.dtype.itemsize : Int) :=
    flen_eq_of_1d _ N hdata' hextra
  have hs0 : shapeResolve
      (viewWrite f (offsetView f k ((N : Int) - (k : Int))) 0 x) none 0 =
      .ok [(N : Int)] := by
    unfold shapeResolve
    rw [if_neg (by simp)]
    exact congrArg Except.ok hshape
  have hdims0 : ([(N : Int)].any (fun d => d < 0)) = false := by
    simp only [List.any_cons, List.any_nil, Bool.or_false,
      decide_eq_false_iff_not, not_lt]
    omega
  have hoff0 : ¬ ((f.headerLen : Int) + 0 * (f.dtype.itemsize : Int) < 0) := by
    push_neg
    positivity
  have hfit0 : ¬ (((viewWrite f (offsetView f k ((N : Int) - (k : Int))) 0
      x).flen : Int) <
      ((f.headerLen : Int) + 0 * (f.dtype.itemsize : Int)) +
        [(N : Int)].prod * (f.dtype.itemsize : Int)) := by
    have heq : ((f.headerLen : Int) + 0 * (f.dtype.itemsize : Int)) +
        [(N : Int)].prod * (f.dtype.itemsize : Int) =
        (f.headerLen : Int) + (N : Int) * (f.dtype.itemsize : Int) := by
      simp only [List.prod_cons, List.prod_nil, mul_one]
      ring
    rw [heq, hflen']
    exact lt_irrefl _
  have hF : openMemmapRead
      (viewWrite f (offsetView f k ((N : Int) - (k : Int))) 0 x)
      .rplus none 0 =
      .ok (offsetView
             (viewWrite f (offsetView f k ((N : Int) - (k : Int))) 0 x)
             0 (N : Int),
           viewWrite f (offsetView f k ((N : Int) - (k : Int))) 0 x) := by
    unfold openMemmapRead
    rw [if_neg (by simpa [viewWrite] using hnv)]
    simp only [hs0]
    rw [if_neg (by simpa [viewWrite] using hno)]
    rw [npMemmap_ok _ _ _ .rplus _ hdims0 (by simp [viewWrite])
      (by simpa [viewWrite] using hfit0) (by decide)]
    unfold offsetView viewWrite
    norm_num
  have hG : viewRead
      (viewWrite f (offsetView f k ((N : Int) - (k : Int))) 0 x)
      (offsetView (viewWrite f (offsetView f k ((N : Int) - (k : Int))) 0 x)
        0 (N : Int)) k = some x := by
    unfold viewRead
    rw [hidxg (viewWrite f (offsetView f k ((N : Int) - (k : Int))) 0 x)
      0 k (N : Int) rfl]
    simp only [Nat.zero_add]
    rw [hfdata]
    exact List.getElem?_set_eq_of_lt x (by rw [hdata]; exact hk)
  exact ⟨hA, hB, rfl, hD, hE, hF, hG⟩

theorem c1_witness :
    openMemmapRead c1File .rplus none 2 =
      .ok (offsetView c1File 2 ((4 : Int) - 2), c1File) ∧
    openMemmapRead c1File .rplus (some [(1 : Int)]) 2 =
      .ok (offsetView c1File 2 (1 : Int), c1File) ∧
    (offsetView c1File 2 ((4 : Int) - 2)).byteOffset =
      (c1File.headerLen : Int) + 2 * (c1File.dtype.itemsize : Int) ∧
    viewRead c1File (offsetView c1File 2 ((4 : Int) - 2)) 0 =
      c1File.data[2]? ∧
    (c1File.data[2]?).isSome = true ∧
    openMemmapRead (viewWrite c1File (offsetView c1File 2 ((4 : Int) - 2))
        0 99) .rplus none 0 =
      .ok (offsetView
             (viewWrite c1File (offsetView c1File 2 ((4 : Int) - 2)) 0 99)
             0 (4 : Int),
           viewWrite c1File (offsetView c1File 2 ((4 : Int) - 2)) 0 99) ∧
    viewRead (viewWrite c1File (offsetView c1File 2 ((4 : Int) - 2)) 0 99)
      (offsetView
        (viewWrite c1File (offsetView c1File 2 ((4 : Int) - 2)) 0 99)
        0 (4 : Int)) 2 = some 99 :=
  c1_offset_correctness c1File 4 2 1 99
    rfl rfl (by decide) (by decide) rfl rfl (by decide) (by decide)

/-- C4, counterexample to the claim as stated: (1) in ReadWrite mode
(`'r+'`), opening the 3-element file at element offset 2 with length
override 5 — offset plus effective length 7 exceeds the stored outer
dimension 3 — does not fail: `numpy.memmap` silently grows the file by
32 bytes and the call succeeds; (2) in ReadOnly mode on a 3 x 10 file,
element offset 2 with length override 2 (offset plus effective length 4
exceeds the outer dimension 3) also succeeds, because the code advances
the byte offset by `offset * itemsize` (line 185), not by a full row of
`itemsize * 10` bytes, so the mapped range still fits in the file. -/
theorem c4_counterexample :
    openMemmapRead c4File1d .rplus (some [5]) 2 =
      .ok ({ byteOffset := 96, shape := [5],
             dtype := { itemsize := 8, hasobject := false },
             mode := .rplus },
           { version := (1, 0), headerLen := 80, fullshape := [3],
             fortranOrder := false,
             dtype := { itemsize := 8, hasobject := false },
             data := [0, 0, 0], extraBytes := 32 }) ∧
    openMemmapRead c4File2d .r (some [2, 10]) 2 =
      .ok ({ byteOffset := 96, shape := [2, 10],
             dtype := { itemsize := 8, hasobject := false },
             mode := .r }, c4File2d) := by
  constructor
  · rfl
  · rfl

/-- C4 amended: for a well-formed 1-D file, when the element offset plus
the override length exceeds the stored outer dimension, the ReadOnly and
CopyOnWrite modes fail with the bounds error, but the ReadWrite mode
instead succeeds, silently growing the file.  (For multi-dimensional
files even the ReadOnly bound does not correspond to the stored outer
dimension, since the byte offset advances by `itemsize` per element
rather than by a full row — see the counterexample.) -/
theorem c4_bounds_read_modes (f : NpyFile) (mode : Mode) (N k L : Int)
    (hver : f.version = (1, 0))
    (hobj : f.dtype.hasobject = false)
    (hit : 0 < f.dtype.itemsize)
    (_hshape : f.fullshape = [N])
    (hdata : (f.data.length : Int) = N)
    (hextra : f.extraBytes = 0)
    (hk : 0 ≤ k) (hL : 0 ≤ L) (hover : N < k + L) :
    ((mode = .r ∨ mode = .c) →
      openMemmapRead f mode (some [L]) k = .error .mmapBounds) ∧
    (openMemmapRead f .rplus (some [L]) k).isOk = true ∧
    (∀ v f', openMemmapRead f .rplus (some [L]) k = .ok (v, f') →
      f.flen < f'.flen) := by
  have hitI : (0 : Int) < (f.dtype.itemsize : Int) := by exact_mod_cast hit
  have hnv : ¬ (f.version ≠ (1, 0)) := by simp [hver]
  have hno : ¬ (f.dtype.hasobject = true) := by simp [hobj]
  have hflen : (f.flen : Int) = (f.headerLen : Int) +
      N * (f.dtype.itemsize : Int) := by
    unfold NpyFile.flen
    rw [hextra]
    push_cast
    rw [hdata]
    ring
  have hdims : ([L].any (fun d => d < 0)) = false := by
    simp only [List.any_cons, List.any_nil, Bool.or_false,
      decide_eq_false_iff_not, not_lt]
    omega
  have hoff : ¬ ((f.headerLen : Int) + k * (f.dtype.itemsize : Int) < 0) := by
    push_neg
    have h1 : 0 ≤ k * (f.dtype.itemsize : Int) := mul_nonneg hk hitI.le
    have h2 : (0 : Int) ≤ (f.headerLen : Int) := by positivity
    linarith
  have hlt : (f.flen : Int) <
      ((f.headerLen : Int) + k * (f.dtype.itemsize : Int)) +
        [L].prod * (f.dtype.itemsize : Int) := by
    have hmul : (N + 1) * (f.dtype.itemsize : Int) ≤
        (k + L) * (f.dtype.itemsize : Int) :=
      mul_le_mul_of_nonneg_right (by omega) hitI.le
    have e1 : (N + 1) * (f.dtype.itemsize : Int) =
        N * (f.dtype.itemsize : Int) + (f.dtype.itemsize : Int) := by ring
    have e2 : (k + L) * (f.dtype.itemsize : Int) =
        k * (f.dtype.itemsize : Int) + L * (f.dtype.itemsize : Int) := by
      ring
    rw [hflen]
    simp only [List.prod_cons, List.prod_nil, mul_one]
    linarith
  refine ⟨?_, ?_, ?_⟩
  · intro hmode
    have hc1 : ¬ (mode = .wplus ∨ (mode = .rplus ∧
        (f.flen : Int) <
          ((f.headerLen : Int) + k * (f.dtype.itemsize : Int)) +
            [L].prod * (f.dtype.itemsize : Int))) := by
      rcases hmode with rfl | rfl
      · rintro (h | ⟨h, _⟩) <;> exact Mode.noConfusion h
      · rintro (h | ⟨h, _⟩) <;> exact Mode.noConfusion h
    unfold openMemmapRead
    rw [if_neg hnv]
    simp only [shapeResolve]
    rw [if_neg hno]
    unfold npMemmap
    rw [if_neg (by simp [hdims]), if_neg hoff, if_neg hc1, if_pos hlt]
  · unfold openMemmapRead
    rw [if_neg hnv]
    simp only [shapeResolve]
    rw [if_neg hno]
    unfold npMemmap
    rw [if_neg (by simp [hdims]), if_neg hoff,
      if_pos (Or.inr ⟨rfl, hlt⟩)]
    rfl
  · intro v f' heq
    unfold openMemmapRead at heq
    rw [if_neg hnv] at heq
    simp only [shapeResolve] at heq
    rw [if_neg hno] at heq
    unfold npMemmap at heq
    rw [if_neg (by simp [hdims]), if_neg hoff,
      if_pos (Or.inr ⟨rfl, hlt⟩)] at heq
    have hf' : f' = { f with extraBytes := f.extraBytes +
        (((f.headerLen : Int) + k * (f.dtype.itemsize : Int)) +
          [L].prod * (f.dtype.itemsize : Int) - (f.flen : Int)).toNat } :=
      (congrArg Prod.snd (Except.ok.inj heq)).symm
    rw [hf']
    unfold NpyFile.flen
    simp only []
    generalize hB : ((f.headerLen : Int) + k * (f.dtype.itemsize : Int)) +
      [L].prod * (f.dtype.itemsize : Int) = B at hlt
    unfold NpyFile.flen at hlt
    omega

theorem c4_witness :
    ((Mode.r = Mode.r ∨ Mode.r = Mode.c) →
      openMemmapRead c4File1d .r (some [5]) 2 = .error .mmapBounds) ∧
    (openMemmapRead c4File1d .rplus (some [5]) 2).isOk = true ∧
    (∀ v f', openMemmapRead c4File1d .rplus (some [5]) 2 = .ok (v, f') →
      c4File1d.flen < f'.flen) :=
  c4_bounds_read_modes c4File1d .r 3 2 5
    rfl rfl (by decide) rfl (by decide) rfl (by decide) (by decide)
    (by decide)

end Cgp
